import Mathlib

/-!
Shallow embedding of the reconciliation core of `tracker.py`
(price tracker): the price normalizer `parse_price_value`, the change
detector `detect_changes`, the per-store snapshot update performed by
`run_tracker`, the database load, and the per-run notification flags.

Python dicts are modelled as association lists with Python's assignment
semantics (`dictInsert` overwrites in place, appends new keys at the end)
and lookup semantics (`dictGet`).  `time.time()` is a parameter `now`.
Prices are modelled as `Nat` (the digit strings parse to non-negative
integers; `float` in the source carries them exactly in this domain).
-/

namespace Tracker

/-- A scraped listing: `{"title": ..., "price": ...}`; `price` is `None`
when extraction failed. -/
structure Listing where
  title : String
  price : Option String
  deriving DecidableEq, Repr

/-- A persisted snapshot entry `{"price": ..., "first_seen": ...}`; either
key may be missing in loaded data, hence the `Option`s. -/
structure Entry where
  price : Option String
  first_seen : Option Nat
  deriving DecidableEq, Repr

/-- `StoreSnapshot`: title → entry, as a Python dict (association list). -/
abbrev Snapshot : Type := List (String × Entry)

/-- `Database`: store name → snapshot. -/
abbrev Database : Type := List (String × Snapshot)

/-- Python `d[k]` / `k in d` lookup on an association list. -/
def dictGet (k : String) : List (String × α) → Option α
  | [] => none
  | (k', v) :: rest => if k' = k then some v else dictGet k rest

/-- Python `d[k] = v`: overwrite in place if the key exists, else append. -/
def dictInsert (k : String) (v : α) : List (String × α) → List (String × α)
  | [] => [(k, v)]
  | (k', v') :: rest =>
      if k' = k then (k, v) :: rest else (k', v') :: dictInsert k v rest

/-- Numeric value of a digit character list, as built by Python
`float("".join(digits))` for an all-digit string. -/
def natOfDigits (cs : List Char) : Nat :=
  cs.foldl (fun acc c => 10 * acc + (c.toNat - 48)) 0

/-- `parse_price_value` from `tracker.py`:
`if not price_str: return None`;
`digits = "".join(c for c in price_str if c.isdigit())`;
`return float(digits) if digits else None`. -/
def parse_price_value : Option String → Option Nat
  | none => none
  | some s =>
      if s = "" then none
      else if s.toList.filter Char.isDigit = [] then none
      else some (natOfDigits (s.toList.filter Char.isDigit))

/-- Reference definition taken from the spec's words: absent input yields
absent output; otherwise delete every non-digit character, yield absent if
no digits remain, else the unsigned integer value of the digit sequence. -/
def parse_price_value_ref : Option String → Option Nat
  | none => none
  | some s =>
      if s.toList.filter Char.isDigit = [] then none
      else some (natOfDigits (s.toList.filter Char.isDigit))

/-- A `ChangeRecord`: the loosely-typed dicts of `detect_changes`, as a
closed sum. -/
inductive Change where
  | new (title : String) (price : Option String)
  | price_drop (title : String) (old_price : Option String) (new_price : Option String)
  | price_up (title : String) (old_price : Option String) (new_price : Option String)
  | gone (title : String)
  deriving DecidableEq, Repr

/-- The `title` field carried by every change record. -/
def Change.titleOf : Change → String
  | .new t _ => t
  | .price_drop t _ _ => t
  | .price_up t _ _ => t
  | .gone t => t

/-- Whether a record is a `gone` record. -/
def Change.isGone : Change → Bool
  | .gone _ => true
  | _ => false

/-- The body of the first loop of `detect_changes` for one current item:
`new` if the title is absent from the previous snapshot, otherwise compare
the normalized prices (`old_price_str = prev[title].get("price")`). -/
def itemChange (prev : Snapshot) (item : Listing) : List Change :=
  match dictGet item.title prev with
  | none => [Change.new item.title item.price]
  | some e =>
      match parse_price_value e.price, parse_price_value item.price with
      | some old_val, some new_val =>
          if new_val < old_val then
            [Change.price_drop item.title e.price item.price]
          else if old_val < new_val then
            [Change.price_up item.title e.price item.price]
          else []
      | _, _ => []

/-- `detect_changes(current_listings, prev_store_data)`: one pass over the
current listings in order, then `gone` records for
`prev_titles - current_titles` (the set of previous keys not among the
current titles; `dedup` models the set built from the dict's keys). -/
def detect_changes (current : List Listing) (prev : Snapshot) : List Change :=
  current.flatMap (itemChange prev)
    ++ ((prev.map Prod.fst).dedup.filter
          (fun t => !((current.map Listing.title).contains t))).map Change.gone

/-- The fresh snapshot entry built for one current item in `run_tracker`:
`{"price": item["price"], "first_seen": prev.get(title, {}).get("first_seen", now)}`. -/
def mkEntry (prev : Snapshot) (now : Nat) (item : Listing) : Entry :=
  ⟨item.price, some (((dictGet item.title prev).bind Entry.first_seen).getD now)⟩

/-- The snapshot-update loop of `run_tracker` (lines 533-541): build
`new_store_data` from scratch out of the current listings. -/
def update_store (current : List Listing) (prev : Snapshot) (now : Nat) : Snapshot :=
  current.foldl (fun acc item => dictInsert item.title (mkEntry prev now item) acc) []

/-- `prev_store_data = db.get(store, {})` followed by
`db[store] = new_store_data`. -/
def db_update (db : Database) (store : String) (current : List Listing) (now : Nat) :
    Database :=
  dictInsert store (update_store current ((dictGet store db).getD []) now) db

/-- Outcome of reading `DB_FILE` at the start of `run_tracker`: the file
may be missing, reading/parsing may raise, or a database is parsed. -/
inductive LoadOutcome where
  | fileMissing
  | readFailed
  | parsed (db : Database)

/-- The load logic of `run_tracker` (lines 424-430): `db = {}`, then
`json.load` under `try`, falling back to `{}` on any exception. -/
def load_db : LoadOutcome → Database
  | .fileMissing => []
  | .readFailed => []
  | .parsed db => db

/-- Per-store inputs to the notification decision: `first_run = store not
in db` and the store's change list. -/
structure StoreOutcome where
  first_run : Bool
  changes : List Change
  deriving DecidableEq, Repr

/-- `c["type"] in ("new", "price_drop")`. -/
def urgent_change : Change → Bool
  | .new _ _ => true
  | .price_drop _ _ _ => true
  | _ => false

/-- One iteration of the per-store flag updates in `run_tracker`
(lines 526-531), acting on `(send_this_run, has_urgent_change)`. -/
def flagsStep (acc : Bool × Bool) (r : StoreOutcome) : Bool × Bool :=
  if r.first_run then (true, acc.2)
  else if r.changes.isEmpty then acc
  else (true, acc.2 || r.changes.any urgent_change)

/-- The `(send_this_run, has_urgent_change)` pair after the store loop,
starting from `(False, False)`. -/
def run_flags (results : List StoreOutcome) : Bool × Bool :=
  results.foldl flagsStep (false, false)

/-- The final send decision (lines 557-561): embeds exist and either the
silent-if-no-changes toggle is off or `send_this_run` is set. -/
def should_send (silent : Bool) (results : List StoreOutcome) : Bool :=
  !results.isEmpty && (!silent || (run_flags results).1)

/-! ### Helper lemmas about the change detector -/

lemma titleOf_mem_itemChange (prev : Snapshot) (item : Listing) :
    ∀ c ∈ itemChange prev item, c.titleOf = item.title := by
  intro c hc
  unfold itemChange at hc
  split at hc
  · simp only [List.mem_singleton] at hc
    subst hc; rfl
  · split at hc
    · split at hc
      · simp only [List.mem_singleton] at hc
        subst hc; rfl
      · split at hc
        · simp only [List.mem_singleton] at hc
          subst hc; rfl
        · simp at hc
    · simp at hc

lemma length_itemChange_le (prev : Snapshot) (item : Listing) :
    (itemChange prev item).length ≤ 1 := by
  unfold itemChange
  split
  · simp
  · split
    · split
      · simp
      · split <;> simp
    · simp

lemma not_gone_mem_itemChange (prev : Snapshot) (item : Listing) :
    ∀ c ∈ itemChange prev item, c.isGone = false := by
  intro c hc
  unfold itemChange at hc
  split at hc
  · simp only [List.mem_singleton] at hc
    subst hc; rfl
  · split at hc
    · split at hc
      · simp only [List.mem_singleton] at hc
        subst hc; rfl
      · split at hc
        · simp only [List.mem_singleton] at hc
          subst hc; rfl
        · simp at hc
    · simp at hc

lemma filter_eq_of_titleOf (l : List Change) (s t : String)
    (h : ∀ c ∈ l, c.titleOf = s) :
    l.filter (fun c => c.titleOf == t) = if s = t then l else [] := by
  induction l with
  | nil => simp
  | cons c l ih =>
    have hc := h c (List.mem_cons_self c l)
    have hl := ih fun x hx => h x (List.mem_cons_of_mem c hx)
    by_cases hst : s = t
    · subst hst
      rw [List.filter_cons_of_pos (by simp [hc]), hl]
      simp
    · rw [List.filter_cons_of_neg (by simp [hc, hst]), hl]
      simp [hst]

lemma filter_flatMap_not_mem (prev : Snapshot) (cur : List Listing) (t : String)
    (h : t ∉ cur.map Listing.title) :
    (cur.flatMap (itemChange prev)).filter (fun c => c.titleOf == t) = [] := by
  induction cur with
  | nil => simp
  | cons hd tl ih =>
    simp only [List.map_cons, List.mem_cons, not_or] at h
    simp only [List.flatMap_cons, List.filter_append]
    rw [filter_eq_of_titleOf _ hd.title t (titleOf_mem_itemChange prev hd),
      if_neg (fun he => h.1 he.symm), List.nil_append]
    exact ih h.2

lemma filter_flatMap_self (prev : Snapshot) (cur : List Listing) (item : Listing)
    (hmem : item ∈ cur) (hnd : (cur.map Listing.title).Nodup) :
    (cur.flatMap (itemChange prev)).filter (fun c => c.titleOf == item.title)
      = itemChange prev item := by
  induction cur with
  | nil => cases hmem
  | cons hd tl ih =>
    simp only [List.map_cons, List.nodup_cons] at hnd
    simp only [List.flatMap_cons, List.filter_append]
    rcases List.mem_cons.mp hmem with rfl | hmem'
    · rw [filter_eq_of_titleOf _ item.title _ (titleOf_mem_itemChange prev item),
        if_pos rfl, filter_flatMap_not_mem prev tl item.title hnd.1, List.append_nil]
    · have hne : hd.title ≠ item.title := fun he =>
        hnd.1 (he ▸ List.mem_map_of_mem Listing.title hmem')
      rw [filter_eq_of_titleOf _ hd.title _ (titleOf_mem_itemChange prev hd),
        if_neg hne, List.nil_append]
      exact ih hmem' hnd.2

lemma filter_map_gone (l : List String) (t : String) :
    ((l.map Change.gone).filter (fun c => c.titleOf == t))
      = (l.filter (fun s => s == t)).map Change.gone := by
  induction l with
  | nil => rfl
  | cons a l ih =>
    by_cases h : a = t
    · subst h
      rw [List.map_cons, List.filter_cons_of_pos (by simp [Change.titleOf]),
        List.filter_cons_of_pos (by simp), List.map_cons, ih]
    · rw [List.map_cons, List.filter_cons_of_neg (by simp [Change.titleOf, h]),
        List.filter_cons_of_neg (by simp [h]), ih]

lemma nodup_filter_beq (l : List String) (t : String) (hnd : l.Nodup) (hmem : t ∈ l) :
    l.filter (fun s => s == t) = [t] := by
  induction l with
  | nil => cases hmem
  | cons a l ih =>
    simp only [List.nodup_cons] at hnd
    rcases List.mem_cons.mp hmem with rfl | hm
    · rw [List.filter_cons_of_pos (by simp)]
      have hnil : l.filter (fun s => s == t) = [] :=
        List.filter_eq_nil_iff.mpr fun s hs hb => by
          have hst : s = t := by simpa using hb
          exact hnd.1 (hst ▸ hs)
      rw [hnil]
    · have hne : a ≠ t := fun he => hnd.1 (he ▸ hm)
      rw [List.filter_cons_of_neg (by simp [hne])]
      exact ih hnd.2 hm

lemma detect_filter_eq (current : List Listing) (prev : Snapshot) (item : Listing)
    (hmem : item ∈ current) (hnd : (current.map Listing.title).Nodup) :
    (detect_changes current prev).filter (fun c => c.titleOf == item.title)
      = itemChange prev item := by
  unfold detect_changes
  rw [List.filter_append, filter_flatMap_self prev current item hmem hnd,
    filter_map_gone]
  have hnil : ((prev.map Prod.fst).dedup.filter
      (fun t => !((current.map Listing.title).contains t))).filter
      (fun s => s == item.title) = [] := by
    apply List.filter_eq_nil_iff.mpr
    intro s hs hb
    have hst : s = item.title := by simpa using hb
    subst hst
    have := (List.mem_filter.mp hs).2
    simp only [Bool.not_eq_true'] at this
    rw [List.contains, List.elem_eq_mem, decide_eq_false_iff_not] at this
    exact this (List.mem_map_of_mem Listing.title hmem)
  rw [hnil, List.map_nil, List.append_nil]

/-! ### Helper lemmas about dict operations and the snapshot update -/

lemma dictGet_dictInsert (k k' : String) (v : α) (l : List (String × α)) :
    dictGet k' (dictInsert k v l) = if k = k' then some v else dictGet k' l := by
  induction l with
  | nil => rfl
  | cons p l ih =>
    obtain ⟨a, b⟩ := p
    by_cases hak : a = k
    · subst hak
      by_cases hk : a = k'
      · subst hk
        simp [dictInsert, dictGet]
      · simp [dictInsert, dictGet, hk]
    · by_cases hk' : a = k'
      · subst hk'
        have hkk : k ≠ a := fun he => hak he.symm
        simp [dictInsert, dictGet, hak, hkk]
      · simp [dictInsert, dictGet, hak, hk', ih]

lemma keys_dictInsert_not_mem (k : String) (v : α) (l : List (String × α))
    (h : k ∉ l.map Prod.fst) :
    (dictInsert k v l).map Prod.fst = l.map Prod.fst ++ [k] := by
  induction l with
  | nil => rfl
  | cons p l ih =>
    obtain ⟨a, b⟩ := p
    simp only [List.map_cons, List.mem_cons, not_or] at h
    have hne : a ≠ k := fun he => h.1 he.symm
    simp [dictInsert, hne, ih h.2]

lemma update_keys_aux (prev : Snapshot) (now : Nat) (cur : List Listing)
    (acc : Snapshot)
    (h : (acc.map Prod.fst ++ cur.map Listing.title).Nodup) :
    ((cur.foldl (fun a item => dictInsert item.title (mkEntry prev now item) a)
        acc).map Prod.fst)
      = acc.map Prod.fst ++ cur.map Listing.title := by
  induction cur generalizing acc with
  | nil => simp
  | cons hd tl ih =>
    simp only [List.foldl_cons, List.map_cons]
    have hsplit := List.nodup_append.mp h
    have hnm : hd.title ∉ acc.map Prod.fst := fun hmem =>
      hsplit.2.2 hmem (List.mem_cons_self _ _)
    have hkeys := keys_dictInsert_not_mem hd.title (mkEntry prev now hd) acc hnm
    rw [ih (dictInsert hd.title (mkEntry prev now hd) acc)
      (by rw [hkeys, List.append_assoc, List.singleton_append]; exact h), hkeys,
      List.append_assoc, List.singleton_append]

lemma dictGet_update_foldl_not_mem (prev : Snapshot) (now : Nat)
    (tl : List Listing) (acc : Snapshot) (t : String)
    (h : t ∉ tl.map Listing.title) :
    dictGet t (tl.foldl (fun a item => dictInsert item.title (mkEntry prev now item) a) acc)
      = dictGet t acc := by
  induction tl generalizing acc with
  | nil => rfl
  | cons hd tl ih =>
    simp only [List.map_cons, List.mem_cons, not_or] at h
    simp only [List.foldl_cons]
    rw [ih _ h.2, dictGet_dictInsert, if_neg (fun he => h.1 he.symm)]

lemma dictGet_update_foldl_mem (prev : Snapshot) (now : Nat)
    (cur : List Listing) (acc : Snapshot) (item : Listing)
    (hmem : item ∈ cur) (hnd : (cur.map Listing.title).Nodup) :
    dictGet item.title
        (cur.foldl (fun a it => dictInsert it.title (mkEntry prev now it) a) acc)
      = some (mkEntry prev now item) := by
  induction cur generalizing acc with
  | nil => cases hmem
  | cons hd tl ih =>
    simp only [List.map_cons, List.nodup_cons] at hnd
    simp only [List.foldl_cons]
    rcases List.mem_cons.mp hmem with rfl | hm
    · rw [dictGet_update_foldl_not_mem prev now tl _ item.title hnd.1,
        dictGet_dictInsert, if_pos rfl]
    · exact ih _ hm hnd.2

/-! ### Helper lemmas about the detector on an empty snapshot -/

lemma detect_changes_nil_prev (current : List Listing) :
    detect_changes current []
      = current.map (fun item => Change.new item.title item.price) := by
  unfold detect_changes
  simp only [List.map_nil, List.dedup_nil, List.filter_nil, List.append_nil]
  induction current with
  | nil => rfl
  | cons hd tl ih =>
    simp only [List.flatMap_cons, List.map_cons, ← ih]
    rfl

/-! ### Helper lemma about the notification flag fold -/

lemma run_flags_foldl (results : List StoreOutcome) (acc : Bool × Bool) :
    results.foldl flagsStep acc
      = (acc.1 || results.any (fun r => r.first_run || !r.changes.isEmpty),
         acc.2 || results.any (fun r => !r.first_run && r.changes.any urgent_change)) := by
  induction results generalizing acc with
  | nil => simp
  | cons r rs ih =>
    obtain ⟨fr, chs⟩ := r
    simp only [List.foldl_cons, List.any_cons]
    rw [ih]
    cases fr
    · cases h2 : chs.isEmpty
      · simp [flagsStep, h2, Bool.or_assoc]
      · have hchs : chs = [] := List.isEmpty_iff.mp h2
        subst hchs
        simp [flagsStep]
    · simp [flagsStep]

/-! ### Claim theorems -/

/-- C3: `parse_price_value` equals the reference definition (absent input
yields absent output; otherwise delete every non-digit character, absent if
no digit remains, else the unsigned integer value of the digits), and in
particular maps "35 990 kr" to 35990, "38 990:-" to 38990, `None` to
`None`, and "no digits" to `None`. -/
theorem parse_price_value_correct :
    (∀ p, parse_price_value p = parse_price_value_ref p)
    ∧ parse_price_value (some "35 990 kr") = some 35990
    ∧ parse_price_value (some "38 990:-") = some 38990
    ∧ parse_price_value none = none
    ∧ parse_price_value (some "no digits") = none := by
  refine ⟨?_, by decide, by decide, rfl, by decide⟩
  intro p
  cases p with
  | none => rfl
  | some s =>
    by_cases hs : s = ""
    · subst hs; decide
    · simp only [parse_price_value, parse_price_value_ref, if_neg hs]

/-- C1: for a title present in both the current listings and the previous
snapshot whose two prices both normalize, `detect_changes` emits exactly
one `price_drop` record (with the old and new price strings) when the new
value is strictly smaller, exactly one `price_up` record when it is
strictly greater, and no record at all when they are equal; in particular
`{"X": "1000 kr"} → [{"X", "900 kr"}]` yields exactly one price drop, and
equal prices yield `[]`. -/
theorem price_change_records :
    (∀ (current : List Listing) (prev : Snapshot) (item : Listing) (e : Entry)
        (old_val new_val : Nat),
        item ∈ current →
        (current.map Listing.title).Nodup →
        dictGet item.title prev = some e →
        parse_price_value e.price = some old_val →
        parse_price_value item.price = some new_val →
        (detect_changes current prev).filter (fun c => c.titleOf == item.title)
          = if new_val < old_val then
              [Change.price_drop item.title e.price item.price]
            else if old_val < new_val then
              [Change.price_up item.title e.price item.price]
            else [])
    ∧ detect_changes [⟨"X", some "900 kr"⟩] [("X", ⟨some "1000 kr", none⟩)]
        = [Change.price_drop "X" (some "1000 kr") (some "900 kr")]
    ∧ detect_changes [⟨"X", some "1000 kr"⟩] [("X", ⟨some "1000 kr", none⟩)] = [] := by
  refine ⟨?_, by decide, by decide⟩
  intro current prev item e old_val new_val hmem hnd hget hov hnv
  rw [detect_filter_eq current prev item hmem hnd]
  simp only [itemChange, hget, hov, hnv]

/-- C1 witness: the drop case of the general statement at the concrete
input of the claim. -/
theorem price_change_records_witness :
    (detect_changes [⟨"X", some "900 kr"⟩] [("X", ⟨some "1000 kr", none⟩)]).filter
        (fun c => c.titleOf == "X")
      = [Change.price_drop "X" (some "1000 kr") (some "900 kr")] := by
  have h := price_change_records.1 [⟨"X", some "900 kr"⟩]
    [("X", ⟨some "1000 kr", none⟩)] ⟨"X", some "900 kr"⟩ ⟨some "1000 kr", none⟩
    1000 900 (by decide) (by decide) (by decide) (by decide) (by decide)
  rw [if_pos (by norm_num)] at h
  exact h

/-- C6 counterexample: against the empty previous snapshot the detector
does produce change records — one `new` per listing — so its result is not
the empty list for a non-empty current list. -/
theorem first_run_detector_counterexample :
    detect_changes [⟨"X", some "900 kr"⟩] [] ≠ [] := by decide

/-- C6 (amended): on a first run the detector runs as normal against the
empty previous snapshot and emits exactly one `new` record per current
listing (in order); the result is empty only when the current list is
empty. -/
theorem first_run_detector_amended :
    ∀ current : List Listing,
      detect_changes current []
        = current.map (fun item => Change.new item.title item.price) :=
  detect_changes_nil_prev

/-- C7: for a title in both the current listings and the previous
snapshot, if either side's price fails to normalize (absent price — also
covering a previous entry lacking the price key — or no digits), no record
is emitted for that title; `detect_changes` is total, so it never fails. -/
theorem missing_price_no_record :
    ∀ (current : List Listing) (prev : Snapshot) (item : Listing) (e : Entry),
      item ∈ current →
      (current.map Listing.title).Nodup →
      dictGet item.title prev = some e →
      (parse_price_value e.price = none ∨ parse_price_value item.price = none) →
      (detect_changes current prev).filter (fun c => c.titleOf == item.title)
        = [] := by
  intro current prev item e hmem hnd hget hnone
  rw [detect_filter_eq current prev item hmem hnd]
  rcases hnone with h | h
  · cases hx : parse_price_value item.price <;> simp [itemChange, hget, h, hx]
  · cases hx : parse_price_value e.price <;> simp [itemChange, hget, h, hx]

/-- C7 witness: a previous entry whose price key is missing, against a
current listing with a price: no record for the shared title. -/
theorem missing_price_no_record_witness :
    (detect_changes [⟨"X", some "900 kr"⟩] [("X", ⟨none, none⟩)]).filter
        (fun c => c.titleOf == "X") = [] :=
  missing_price_no_record [⟨"X", some "900 kr"⟩] [("X", ⟨none, none⟩)]
    ⟨"X", some "900 kr"⟩ ⟨none, none⟩ (by decide) (by decide) (by decide)
    (Or.inl rfl)

/-- C9: `detect_changes` and `parse_price_value` are deterministic pure
functions — equal inputs always produce equal outputs (identical record
lists in identical order). -/
theorem detector_deterministic :
    ∀ (cur₁ cur₂ : List Listing) (prev₁ prev₂ : Snapshot) (p₁ p₂ : Option String),
      cur₁ = cur₂ → prev₁ = prev₂ → p₁ = p₂ →
      detect_changes cur₁ prev₁ = detect_changes cur₂ prev₂
      ∧ parse_price_value p₁ = parse_price_value p₂ := by
  intro cur₁ cur₂ prev₁ prev₂ p₁ p₂ h1 h2 h3
  subst h1; subst h2; subst h3
  exact ⟨rfl, rfl⟩

/-- C9 witness: the determinism statement applied at a concrete input. -/
theorem detector_deterministic_witness :
    detect_changes [⟨"X", some "900 kr"⟩] [] = detect_changes [⟨"X", some "900 kr"⟩] []
    ∧ parse_price_value (some "900 kr") = parse_price_value (some "900 kr") :=
  detector_deterministic [⟨"X", some "900 kr"⟩] [⟨"X", some "900 kr"⟩] [] []
    (some "900 kr") (some "900 kr") rfl rfl rfl

/-- C2: with unique current titles and a well-formed previous snapshot,
every previous title absent from the current titles gets exactly one
`gone` record and no other record mentions it; every current title gets at
most one record and never a `gone` record; and an empty current list
yields exactly one `gone` record per previous title and nothing else. -/
theorem gone_completeness :
    ∀ (current : List Listing) (prev : Snapshot),
      (current.map Listing.title).Nodup →
      (prev.map Prod.fst).Nodup →
      (∀ t, t ∈ prev.map Prod.fst → t ∉ current.map Listing.title →
          (detect_changes current prev).filter (fun c => c.titleOf == t)
            = [Change.gone t])
      ∧ (∀ t, t ∈ current.map Listing.title →
          ((detect_changes current prev).filter (fun c => c.titleOf == t)).length ≤ 1
          ∧ Change.gone t ∉ detect_changes current prev)
      ∧ (current = [] →
          detect_changes current prev = (prev.map Prod.fst).map Change.gone) := by
  intro current prev hndc hndp
  refine ⟨?_, ?_, ?_⟩
  · intro t htp htc
    unfold detect_changes
    rw [List.filter_append, filter_flatMap_not_mem prev current t htc,
      List.nil_append, filter_map_gone, hndp.dedup]
    have hmemf : t ∈ (prev.map Prod.fst).filter
        (fun s => !((current.map Listing.title).contains s)) :=
      List.mem_filter.mpr ⟨htp, by simpa using htc⟩
    rw [nodup_filter_beq _ t (hndp.filter _) hmemf]
    rfl
  · intro t htc
    obtain ⟨item, hitem, rfl⟩ := List.mem_map.mp htc
    constructor
    · rw [detect_filter_eq current prev item hitem hndc]
      exact length_itemChange_le prev item
    · intro hgone
      have hfm : Change.gone item.title ∈
          (detect_changes current prev).filter (fun c => c.titleOf == item.title) :=
        List.mem_filter.mpr ⟨hgone, by simp [Change.titleOf]⟩
      rw [detect_filter_eq current prev item hitem hndc] at hfm
      have hng := not_gone_mem_itemChange prev item _ hfm
      simp [Change.isGone] at hng
  · intro hc
    subst hc
    unfold detect_changes
    simp [hndp.dedup]

/-- C2 witness: the three parts at concrete inputs — a vanished previous
title "A", a current title "B", and an empty current list. -/
theorem gone_completeness_witness :
    (detect_changes [⟨"B", some "1 kr"⟩] [("A", ⟨some "2 kr", none⟩)]).filter
        (fun c => c.titleOf == "A") = [Change.gone "A"]
    ∧ ((detect_changes [⟨"B", some "1 kr"⟩] [("A", ⟨some "2 kr", none⟩)]).filter
        (fun c => c.titleOf == "B")).length ≤ 1
    ∧ detect_changes [] [("A", ⟨some "2 kr", none⟩)] = [Change.gone "A"] := by
  have h := gone_completeness [⟨"B", some "1 kr"⟩] [("A", ⟨some "2 kr", none⟩)]
    (by decide) (by decide)
  have h0 := gone_completeness [] [("A", ⟨some "2 kr", none⟩)] (by decide) (by decide)
  exact ⟨h.1 "A" (by decide) (by decide), (h.2.1 "B" (by decide)).1,
    by simpa using h0.2.2 rfl⟩

/-- C4: after the per-store snapshot update, the database maps the store
to a snapshot whose keys are exactly the current titles, each carrying its
current price string and a `first_seen` equal to the previous entry's
`first_seen` when one existed and to the current wall-clock time
otherwise. -/
theorem snapshot_update_correct :
    ∀ (db : Database) (store : String) (current : List Listing) (now : Nat),
      (current.map Listing.title).Nodup →
      dictGet store (db_update db store current now)
          = some (update_store current ((dictGet store db).getD []) now)
      ∧ (update_store current ((dictGet store db).getD []) now).map Prod.fst
          = current.map Listing.title
      ∧ ∀ item, item ∈ current →
          dictGet item.title (update_store current ((dictGet store db).getD []) now)
            = some ⟨item.price,
                some (((dictGet item.title ((dictGet store db).getD [])).bind
                        Entry.first_seen).getD now)⟩ := by
  intro db store current now hnd
  refine ⟨?_, ?_, ?_⟩
  · unfold db_update
    rw [dictGet_dictInsert, if_pos rfl]
  · have h := update_keys_aux ((dictGet store db).getD []) now current []
      (by simpa using hnd)
    simpa [update_store] using h
  · intro item hmem
    exact dictGet_update_foldl_mem ((dictGet store db).getD []) now current []
      item hmem hnd

/-- C4 witness: for a fresh store "s" with one listing, the update stores
exactly that title with its price and `first_seen = now`. -/
theorem snapshot_update_correct_witness :
    dictGet "s" (db_update [] "s" [⟨"X", some "900 kr"⟩] 5)
        = some (update_store [⟨"X", some "900 kr"⟩] [] 5)
    ∧ (update_store [⟨"X", some "900 kr"⟩] [] 5).map Prod.fst = ["X"]
    ∧ dictGet "X" (update_store [⟨"X", some "900 kr"⟩] [] 5)
        = some ⟨some "900 kr", some 5⟩ := by
  have h := snapshot_update_correct [] "s" [⟨"X", some "900 kr"⟩] 5 (by decide)
  exact ⟨h.1, h.2.1, h.2.2 ⟨"X", some "900 kr"⟩ (by decide)⟩

/-- C5: `send_this_run` is set exactly when some store is on its first run
or has a non-empty change list; `has_urgent_change` is set exactly when
some non-first-run store has a `new` or `price_drop` change; under the
silent toggle a run with no first-run stores and no changes sends
nothing; and any first-run store by itself makes the run
notification-worthy. -/
theorem notification_policy :
    ∀ results : List StoreOutcome,
      ((run_flags results).1
          = results.any (fun r => r.first_run || !r.changes.isEmpty))
      ∧ ((run_flags results).2
          = results.any (fun r => !r.first_run && r.changes.any urgent_change))
      ∧ (results.all (fun r => !r.first_run && r.changes.isEmpty) = true →
          should_send true results = false)
      ∧ (∀ r, r ∈ results → r.first_run = true → (run_flags results).1 = true) := by
  intro results
  have hchar := run_flags_foldl results (false, false)
  have h1 : (run_flags results).1
      = results.any (fun r => r.first_run || !r.changes.isEmpty) := by
    unfold run_flags
    rw [hchar]
    simp
  have h2 : (run_flags results).2
      = results.any (fun r => !r.first_run && r.changes.any urgent_change) := by
    unfold run_flags
    rw [hchar]
    simp
  refine ⟨h1, h2, ?_, ?_⟩
  · intro hall
    have hany : results.any (fun r => r.first_run || !r.changes.isEmpty) = false := by
      rw [List.any_eq_false]
      intro r hr
      have hra := List.all_eq_true.mp hall r hr
      simp only [Bool.and_eq_true, Bool.not_eq_true'] at hra
      simp [hra.1, hra.2]
    unfold should_send
    rw [h1, hany]
    simp
  · intro r hr hfr
    rw [h1, List.any_eq_true]
    exact ⟨r, hr, by simp [hfr]⟩

/-- C5 witness: one first-run store with zero changes makes the run
notification-worthy, and a single previously-seen store with no changes
sends nothing under the silent toggle. -/
theorem notification_policy_witness :
    (run_flags [⟨true, []⟩]).1 = true
    ∧ should_send true [⟨false, []⟩] = false := by
  constructor
  · exact (notification_policy [⟨true, []⟩]).2.2.2 ⟨true, []⟩ (by decide) rfl
  · exact (notification_policy [⟨false, []⟩]).2.2.1 (by decide)

/-- C8: loading persisted state returns the empty database when the file
is missing or reading/parsing fails, and the stored database when parsing
succeeds. -/
theorem load_db_recovers :
    load_db LoadOutcome.fileMissing = []
    ∧ load_db LoadOutcome.readFailed = []
    ∧ ∀ db, load_db (LoadOutcome.parsed db) = db :=
  ⟨rfl, rfl, fun _ => rfl⟩

/-- C10 (implicit): when the current listing list is empty at
snapshot-update time, the store's snapshot is replaced by the empty
mapping — every previously recorded title and `first_seen` is discarded —
and against that empty snapshot every listing of a later run is
classified as `new`. -/
theorem empty_scrape_resets_snapshot :
    ∀ (db : Database) (store : String) (prev : Snapshot) (now : Nat)
      (next_current : List Listing),
      update_store [] prev now = []
      ∧ dictGet store (db_update db store [] now) = some []
      ∧ detect_changes next_current (update_store [] prev now)
          = next_current.map (fun item => Change.new item.title item.price) := by
  intro db store prev now next
  refine ⟨rfl, ?_, detect_changes_nil_prev next⟩
  unfold db_update
  rw [dictGet_dictInsert, if_pos rfl]
  rfl

end Tracker
